import Mathlib

/-!
Verification of the Gaia tectonic-plate initialization core (plugin GaiaPTP).

The C++ sources are shallowly embedded:
  FibonacciSphere.cpp      -> GeneratePoints
  TectonicSeeding.cpp      -> GeneratePlateSeeds, AssignPointsToSeeds
  CrustInitialization.cpp  -> InitializeCrustData, InitializePlateDynamics,
                              DetectPlateBoundaries, ClassifyPlates
  PTPPlanetComponent.cpp   -> ComputeSettingsHash, RebuildPlanet
  CGALAdjacencyProvider.cpp-> AdjacencyBuild (real branch), AdjacencyBuildStub

Float arithmetic is modelled with exact real numbers (the specification states
its numeric properties up to floating tolerance); 32-bit ints are modelled with
Int/Nat.  Engine randomness (FRandomStream) is modelled by explicit streams of
draws passed as parameters: an FRand fraction lies in [0,1), FRandRange(a,b)
is a + (b-a)*fraction, and integer RandRange(0,i) is a draw in [0,i]; those
range facts appear as hypotheses of the theorems.  The engine hash primitives
HashCombine / GetTypeHash (engine code, not part of this repository) are kept
abstract as function parameters of ComputeSettingsHash.
-/

namespace Gaia

/-- Vec3 models Unreal's FVector: three float components, read as reals. -/
structure Vec3 where
  x : ℝ
  y : ℝ
  z : ℝ

noncomputable section

/-- vzero models FVector::ZeroVector. -/
def vzero : Vec3 := ⟨0, 0, 0⟩

/-- upVector models FVector::UpVector (0,0,1), the FTectonicPlate default axis. -/
def upVector : Vec3 := ⟨0, 0, 1⟩

/-- vadd models componentwise FVector addition. -/
def vadd (a b : Vec3) : Vec3 := ⟨a.x + b.x, a.y + b.y, a.z + b.z⟩

/-- vsub models componentwise FVector subtraction. -/
def vsub (a b : Vec3) : Vec3 := ⟨a.x - b.x, a.y - b.y, a.z - b.z⟩

/-- vscale models FVector * float. -/
def vscale (a : Vec3) (c : ℝ) : Vec3 := ⟨a.x * c, a.y * c, a.z * c⟩

/-- dotV models FVector::DotProduct. -/
def dotV (a b : Vec3) : ℝ := a.x * b.x + a.y * b.y + a.z * b.z

/-- crossV models FVector::CrossProduct. -/
def crossV (a b : Vec3) : Vec3 :=
  ⟨a.y * b.z - a.z * b.y, a.z * b.x - a.x * b.z, a.x * b.y - a.y * b.x⟩

/-- sizeSquared models FVector::SizeSquared. -/
def sizeSquared (a : Vec3) : ℝ := a.x * a.x + a.y * a.y + a.z * a.z

/-- sizeV models FVector::Size, the Euclidean norm. -/
def sizeV (a : Vec3) : ℝ := Real.sqrt (sizeSquared a)

/-- smallNumber models Unreal's SMALL_NUMBER = 1e-8 tolerance constant. -/
def smallNumber : ℝ := 1 / 100000000

/-- safeNormal models FVector::GetSafeNormal with the default tolerance:
the zero vector when the squared length is below SMALL_NUMBER, otherwise the
vector scaled by the inverse length. -/
def safeNormal (v : Vec3) : Vec3 :=
  if sizeSquared v < smallNumber then vzero
  else vscale v (Real.sqrt (sizeSquared v))⁻¹

/-- normalizeUE models the in-place FVector::Normalize with default tolerance:
the vector is scaled to unit length when its squared length exceeds
SMALL_NUMBER and left unchanged otherwise. -/
def normalizeUE (v : Vec3) : Vec3 :=
  if smallNumber < sizeSquared v then vscale v (Real.sqrt (sizeSquared v))⁻¹
  else v

/-- clampR models FMath::Clamp on floats (Min then Max applied). -/
def clampR (v lo hi : ℝ) : ℝ := min (max v lo) hi

/-- lerpR models FMath::Lerp: A + Alpha * (B - A). -/
def lerpR (a b alpha : ℝ) : ℝ := a + alpha * (b - a)

/-- frandRange models FRandomStream::FRandRange(Min, Max) applied to one FRand
fraction t: Min + (Max - Min) * t.  The stream contract t in [0,1) is stated
as a hypothesis wherever it matters. -/
def frandRange (lo hi t : ℝ) : ℝ := lo + (hi - lo) * t

/-- goldenAngle is PI * (3 - sqrt 5), from FFibonacciSphere::GeneratePoints. -/
def goldenAngle : ℝ := Real.pi * (3 - Real.sqrt 5)

/-- fibPoint is the body of the loop of FFibonacciSphere::GeneratePoints for
index i out of n points at radius radiusKm. -/
def fibPoint (n : ℤ) (radiusKm : ℝ) (i : ℕ) : Vec3 :=
  let t : ℝ := ((i : ℝ) + 0.5) / (n : ℝ)
  let y : ℝ := 1 - 2 * t
  let r : ℝ := Real.sqrt (max 0 (1 - y * y))
  let theta : ℝ := goldenAngle * (i : ℝ)
  ⟨r * Real.cos theta * radiusKm, y * radiusKm, r * Real.sin theta * radiusKm⟩

/-- GeneratePoints models FFibonacciSphere::GeneratePoints: an empty output
for n less or equal 0, otherwise the n golden-angle spiral points. -/
def GeneratePoints (n : ℤ) (radiusKm : ℝ) : List Vec3 :=
  if n ≤ 0 then [] else (List.range n.toNat).map (fibPoint n radiusKm)

end

/-- isValidIndexZ models TArray::IsValidIndex for an int32 index:
0 less-equal idx and idx less than the length. -/
def isValidIndexZ (len : ℕ) (idx : ℤ) : Bool :=
  decide (0 ≤ idx) && decide (idx < (len : ℤ))

/-- DetectPlateBoundaries models FCrustInitialization::DetectPlateBoundaries.
A point is flagged iff its neighbor list (when the Neighbors array has an
entry for it; getD with default [] realizes the IsValidIndex guard) contains a
valid index whose plate id differs from the point's own plate id.  The
parallel and sequential code paths run the same per-point closure, so one
pure map models both. -/
def DetectPlateBoundaries (pointPlateIds : List ℤ) (neighbors : List (List ℤ)) :
    List Bool :=
  (List.range pointPlateIds.length).map (fun pointIdx =>
    (neighbors.getD pointIdx []).any (fun nIdx =>
      isValidIndexZ pointPlateIds.length nIdx &&
      decide (pointPlateIds.getD nIdx.toNat 0 ≠ pointPlateIds.getD pointIdx 0)))

/-- fltMax is the exact real value of FLT_MAX, the initial BestDot of the
seed-selection loop of FTectonicSeeding::AssignPointsToSeeds (negated). -/
noncomputable def fltMax : ℝ := 2 ^ 128 - 2 ^ 104

/-- bestSeedAux is the inner seed loop of
FTectonicSeeding::AssignPointsToSeeds: the state is (BestIdx, BestDot), j the
running seed index, and the update fires exactly when the dot product
strictly exceeds BestDot. -/
noncomputable def bestSeedAux (pn : Vec3) : List Vec3 → ℕ → ℕ × ℝ → ℕ × ℝ
  | [], _, st => st
  | s :: rest, j, st =>
      bestSeedAux pn rest (j + 1) (if st.2 < dotV pn s then (j, dotV pn s) else st)

/-- bestSeedIdx runs the seed loop for one (already normalized) point,
starting from BestIdx = 0 and BestDot = -FLT_MAX. -/
noncomputable def bestSeedIdx (pn : Vec3) (seeds : List Vec3) : ℕ :=
  (bestSeedAux pn seeds 0 (0, -fltMax)).1

/-- bucketsAux is the plate-bucket filling loop of AssignPointsToSeeds: each
pair (i, j) appends point index i to the plate list at index j (the set is a
no-op when j is out of range, which never happens under a nonempty seed
list). -/
def bucketsAux (pairs : List (ℕ × ℕ)) (b : List (List ℕ)) : List (List ℕ) :=
  pairs.foldl (fun acc pr => acc.set pr.2 (acc.getD pr.2 [] ++ [pr.1])) b

/-- AssignPointsToSeeds models FTectonicSeeding::AssignPointsToSeeds: each
point is normalized and assigned to the seed with maximal dot product, and the
plate-to-points lists collect the point indices in increasing order. -/
noncomputable def AssignPointsToSeeds (points seeds : List Vec3) :
    List ℕ × List (List ℕ) :=
  let asgn := points.map (fun p => bestSeedIdx (safeNormal p) seeds)
  (asgn, bucketsAux asgn.enum (List.replicate seeds.length []))

/-- assignCheckedAux is AssignPointsToSeeds with the one unchecked C++ array
access, OutPlateToPoints[BestIdx], made explicit: the recursion returns none
exactly when that access would be out of bounds. -/
noncomputable def assignCheckedAux (seeds : List Vec3) :
    List (ℕ × Vec3) → List ℕ × List (List ℕ) → Option (List ℕ × List (List ℕ))
  | [], st => some st
  | (i, p) :: rest, st =>
      let bi := bestSeedIdx (safeNormal p) seeds
      if bi < st.2.length then
        assignCheckedAux seeds rest
          (st.1.set i bi, st.2.set bi (st.2.getD bi [] ++ [i]))
      else none

/-- AssignPointsToSeedsChecked is the bounds-checked rendering of
FTectonicSeeding::AssignPointsToSeeds used for the memory-safety claim. -/
noncomputable def AssignPointsToSeedsChecked (points seeds : List Vec3) :
    Option (List ℕ × List (List ℕ)) :=
  assignCheckedAux seeds points.enum
    (List.replicate points.length 0, List.replicate seeds.length [])

/-- GeneratePlateSeeds models FTectonicSeeding::GeneratePlateSeeds: Fibonacci
points on the unit sphere, each renormalized with GetSafeNormal. -/
noncomputable def GeneratePlateSeeds (numPlates : ℤ) : List Vec3 :=
  if numPlates ≤ 0 then []
  else (GeneratePoints numPlates 1).map safeNormal

/-- ECrustType models the crust-type enum of TectonicTypes.h. -/
inductive ECrustType where
  | Oceanic : ECrustType
  | Continental : ECrustType
deriving DecidableEq

/-- EOrogenyType models the orogeny enum of TectonicTypes.h. -/
inductive EOrogenyType where
  | None : EOrogenyType
  | Andean : EOrogenyType
  | Himalayan : EOrogenyType
deriving DecidableEq

/-- FCrustData models the per-point crust record of TectonicData.h (the C++
field named Type is rendered crustType). -/
structure FCrustData where
  crustType : ECrustType
  thickness : ℝ
  elevation : ℝ
  oceanicAge : ℝ
  ridgeDirection : Vec3
  orogenyAge : ℝ
  orogenyType : EOrogenyType
  foldDirection : Vec3

/-- defaultCrustData is the FCrustData default constructor of TectonicData.h. -/
noncomputable def defaultCrustData : FCrustData :=
  { crustType := ECrustType.Oceanic
    thickness := 7
    elevation := -6
    oceanicAge := 0
    ridgeDirection := vzero
    orogenyAge := 0
    orogenyType := EOrogenyType.None
    foldDirection := vzero }

/-- roundToInt models FMath::RoundToInt on the exact rational value:
round half up, the floor of q + 1/2. -/
def roundToInt (q : ℚ) : ℤ := ⌊q + 1 / 2⌋

/-- swapTA models TArray::Swap of two element positions of an int array. -/
def swapTA (l : List ℕ) (i j : ℕ) : List ℕ :=
  (l.set i (l.getD j 0)).set j (l.getD i 0)

/-- fisherYatesAux is the shuffle loop of FCrustInitialization::ClassifyPlates:
for i from the start value down to 1, swap positions i and draw i, where
draw i models RandStream.RandRange(0, i) (so draw i lies in [0, i]). -/
def fisherYatesAux (draw : ℕ → ℕ) : ℕ → List ℕ → List ℕ
  | 0, l => l
  | Nat.succ i, l => fisherYatesAux draw i (swapTA l (Nat.succ i) (draw (Nat.succ i)))

/-- scatter is the array-write loop shape shared by ClassifyPlates and
InitializeCrustData: each pair (position, value) is written with set. -/
def scatter {α : Type} (init : List α) (pairs : List (ℕ × α)) : List α :=
  pairs.foldl (fun o pr => o.set pr.1 pr.2) init

/-- ClassifyPlates models FCrustInitialization::ClassifyPlates: the plate
index list is Fisher-Yates shuffled with the seeded draw stream, and the first
round(numPlates * continentalFrac) shuffled plates are marked continental. -/
def ClassifyPlates (numPlates : ℕ) (continentalFrac : ℚ) (draw : ℕ → ℕ) :
    List Bool :=
  let numContinental := (roundToInt ((numPlates : ℚ) * continentalFrac)).toNat
  let plateIndices := fisherYatesAux draw (numPlates - 1) (List.range numPlates)
  scatter (List.replicate numPlates false)
    ((List.range numPlates).map
      (fun i => (plateIndices.getD i 0, decide (i < numContinental))))

/-- plateCentroid is the centroid computation of the per-plate closure of
FCrustInitialization::InitializeCrustData: sum of the member points, divided
by the member count and normalized in place when the plate is nonempty. -/
noncomputable def plateCentroid (samplePoints : List Vec3) (platePoints : List ℕ) :
    Vec3 :=
  let s := platePoints.foldl
    (fun acc idx => vadd acc (samplePoints.getD idx vzero)) vzero
  if 0 < platePoints.length then
    normalizeUE (vscale s ((platePoints.length : ℝ))⁻¹)
  else s

/-- oceanicCrustAt is the oceanic branch of the per-point loop of
InitializeCrustData. -/
noncomputable def oceanicCrustAt (abyssalKm ridgeKm : ℝ) (point centroid : Vec3) :
    FCrustData :=
  let distanceAngle := Real.arccos (clampR (dotV point centroid) (-1) 1)
  let maxAngle := Real.pi / 4
  let normalizedDist := clampR (distanceAngle / maxAngle) 0 1
  let toCenter := normalizeUE (vsub centroid point)
  { crustType := ECrustType.Oceanic
    thickness := 7
    elevation := lerpR ridgeKm abyssalKm normalizedDist
    oceanicAge := normalizedDist * 200
    ridgeDirection := safeNormal (crossV toCenter point)
    orogenyAge := 0
    orogenyType := EOrogenyType.None
    foldDirection := vzero }

/-- continentalCrustAt is the continental branch of the per-point loop of
InitializeCrustData; draw1 and draw2 are the two FRand fractions the branch
consumes from the plate-local stream. -/
noncomputable def continentalCrustAt (draw1 draw2 : ℝ) : FCrustData :=
  { crustType := ECrustType.Continental
    thickness := 35
    elevation := 0.5 + frandRange (-0.2) 0.2 draw1
    oceanicAge := 0
    ridgeDirection := vzero
    orogenyAge := frandRange 500 3000 draw2
    orogenyType := EOrogenyType.None
    foldDirection := vzero }

/-- crustPairsForPlate is the per-plate closure of InitializeCrustData as a
list of (point index, crust value) writes; localRand is the plate-local
deterministic stream (two fractions consumed per continental point, none per
oceanic point). -/
noncomputable def crustPairsForPlate (samplePoints : List Vec3)
    (abyssalKm ridgeKm : ℝ) (bIsContinental : Bool) (platePoints : List ℕ)
    (localRand : ℕ → ℝ) : List (ℕ × FCrustData) :=
  let centroid := plateCentroid samplePoints platePoints
  if bIsContinental then
    platePoints.enum.map (fun pr =>
      (pr.2, continentalCrustAt (localRand (2 * pr.1)) (localRand (2 * pr.1 + 1))))
  else
    platePoints.map (fun idx =>
      (idx, oceanicCrustAt abyssalKm ridgeKm (samplePoints.getD idx vzero) centroid))

/-- InitializeCrustData models FCrustInitialization::InitializeCrustData.
The output starts as numPoints default records; each plate (classified by
ClassifyPlates) then writes the crust of its member points.  classifyDraw and
localRand are the explicit renderings of the seeded engine streams (the C++
derives them from Seed and Seed + 1000 + PlateIdx * 10007); the parallel and
sequential paths run the same per-plate closure on disjoint points, so the
sequential fold models both. -/
noncomputable def InitializeCrustData (samplePoints : List Vec3)
    (plateToPoints : List (List ℕ)) (continentalFrac : ℚ)
    (abyssalKm ridgeKm : ℝ) (classifyDraw : ℕ → ℕ) (localRand : ℕ → ℕ → ℝ) :
    List FCrustData :=
  let numPoints := samplePoints.length
  let numPlates := plateToPoints.length
  let isPlateContinent := ClassifyPlates numPlates continentalFrac classifyDraw
  (List.range numPlates).foldl
    (fun out plateIdx =>
      scatter out
        (crustPairsForPlate samplePoints abyssalKm ridgeKm
          (isPlateContinent.getD plateIdx false)
          (plateToPoints.getD plateIdx []) (localRand plateIdx)))
    (List.replicate numPoints defaultCrustData)

/-- FTectonicPlate models the plate record of TectonicData.h (terranes,
unused by the verified code, are omitted). -/
structure FTectonicPlate where
  plateId : ℤ
  pointIndices : List ℕ
  centroidDir : Vec3
  rotationAxis : Vec3
  angularVelocity : ℝ

/-- GetVelocityAtPoint models FTectonicPlate::GetVelocityAtPoint:
cross(RotationAxis * AngularVelocity, Point). -/
noncomputable def GetVelocityAtPoint (plate : FTectonicPlate) (point : Vec3) :
    Vec3 :=
  crossV (vscale plate.rotationAxis plate.angularVelocity) point

/-- InitializePlateDynamics models FCrustInitialization::InitializePlateDynamics.
axisDraw p is the final triple produced by the do-while rejection loop for
plate p (components drawn by FRandRange(-1,1) and redrawn while the squared
size is below 0.01; both facts appear as hypotheses of the theorems), and
omegaDraw p is the FRand fraction behind FRandRange(-MaxAngularVelocity,
MaxAngularVelocity).  MaxSpeedKmPerMy equals MaxPlateSpeedMmPerYear
(numerically identical units). -/
noncomputable def InitializePlateDynamics (planetRadiusKm maxPlateSpeedMmPerYear : ℝ)
    (axisDraw : ℕ → Vec3) (omegaDraw : ℕ → ℝ)
    (outPlates : List FTectonicPlate) : List FTectonicPlate :=
  let maxSpeedKmPerMy := maxPlateSpeedMmPerYear
  let maxAngularVelocity := maxSpeedKmPerMy / planetRadiusKm
  outPlates.enum.map (fun pr =>
    { pr.2 with
      rotationAxis := safeNormal (axisDraw pr.1)
      angularVelocity :=
        frandRange (-maxAngularVelocity) maxAngularVelocity (omegaDraw pr.1) })

/-- PTPConfig collects the generation-relevant configuration read by
UPTPPlanetComponent::RebuildPlanet (the continental fraction field renders the
C++ ContinentalRatio). -/
structure PTPConfig where
  numSamplePoints : ℤ
  numPlates : ℤ
  planetRadiusKm : ℝ
  visualizationScale : ℝ
  continentalFrac : ℚ
  abyssalPlainElevationKm : ℝ
  highestOceanicRidgeElevationKm : ℝ
  maxPlateSpeedMmPerYear : ℝ
  initialSeed : ℤ

/-- ComputeSettingsHash models UPTPPlanetComponent::ComputeSettingsHash.  The
engine primitives HashCombine and GetTypeHash are engine code, not part of
this repository, and are kept abstract as parameters; the source combines, in
order, exactly NumSamplePoints, NumPlates, PlanetRadiusKm and
VisualizationScale starting from 0. -/
def ComputeSettingsHash (hashCombine : ℕ → ℕ → ℕ) (typeHashInt : ℤ → ℕ)
    (typeHashFloat : ℝ → ℕ) (c : PTPConfig) : ℕ :=
  hashCombine
    (hashCombine
      (hashCombine
        (hashCombine 0 (typeHashInt c.numSamplePoints))
        (typeHashInt c.numPlates))
      (typeHashFloat c.planetRadiusKm))
    (typeHashFloat c.visualizationScale)

/-- PlanetState is the output state of UPTPPlanetComponent written by
RebuildPlanet. -/
structure PlanetState where
  cachedSettingsHash : ℕ
  samplePoints : List Vec3
  numGeneratedPoints : ℕ
  plates : List FTectonicPlate
  pointPlateIds : List ℕ
  crustData : List FCrustData
  numPlatesGenerated : ℕ

/-- RngStreams bundles the explicit renderings of the seeded engine random
streams consumed by a rebuild. -/
structure RngStreams where
  classifyDraw : ℕ → ℕ
  localRand : ℕ → ℕ → ℝ
  axisDraw : ℕ → Vec3
  omegaDraw : ℕ → ℝ

/-- BuildPlanet is the full generation pipeline of
UPTPPlanetComponent::RebuildPlanet past the memoization check: sampling,
seeding, assignment, plate structs, crust initialization and plate dynamics,
with the cached hash updated to the current hash. -/
noncomputable def BuildPlanet (rng : RngStreams) (c : PTPConfig)
    (currentHash : ℕ) : PlanetState :=
  let samplePoints := GeneratePoints c.numSamplePoints c.planetRadiusKm
  let seeds := GeneratePlateSeeds c.numPlates
  let asgn := AssignPointsToSeeds samplePoints seeds
  let newPlates := (List.range c.numPlates.toNat).map (fun p =>
    { plateId := Int.ofNat p
      pointIndices := asgn.2.getD p []
      centroidDir := seeds.getD p vzero
      rotationAxis := upVector
      angularVelocity := 0 : FTectonicPlate })
  let newCrust := InitializeCrustData samplePoints asgn.2 c.continentalFrac
    c.abyssalPlainElevationKm c.highestOceanicRidgeElevationKm
    rng.classifyDraw rng.localRand
  let newPlates2 := InitializePlateDynamics c.planetRadiusKm
    c.maxPlateSpeedMmPerYear rng.axisDraw rng.omegaDraw newPlates
  { cachedSettingsHash := currentHash
    samplePoints := samplePoints
    numGeneratedPoints := samplePoints.length
    plates := newPlates2
    pointPlateIds := asgn.1
    crustData := newCrust
    numPlatesGenerated := newPlates2.length }

/-- RebuildPlanet models UPTPPlanetComponent::RebuildPlanet: the rebuild is
skipped, leaving the whole state unchanged, exactly when the current settings
hash equals the cached one and the existing sample-point output is nonempty;
otherwise the full pipeline runs. -/
noncomputable def RebuildPlanet (hashCombine : ℕ → ℕ → ℕ) (typeHashInt : ℤ → ℕ)
    (typeHashFloat : ℝ → ℕ) (rng : RngStreams) (st : PlanetState)
    (c : PTPConfig) : PlanetState :=
  let currentHash := ComputeSettingsHash hashCombine typeHashInt typeHashFloat c
  if currentHash = st.cachedSettingsHash ∧ 0 < st.samplePoints.length then st
  else BuildPlanet rng c currentHash

/-- FPTPAdjacency models the adjacency output record of
IPTPAdjacencyProvider.h; each per-vertex neighbor array is modelled by the
finite set of its elements (the C++ fills it by iterating a TSet, whose
iteration order is unspecified). -/
structure FPTPAdjacency where
  neighbors : List (Finset ℕ)
  triangles : List (ℕ × ℕ × ℕ)

/-- insNb inserts b into the neighbor set of a (TSet::Add on Nbs[a]). -/
def insNb (nbs : ℕ → Finset ℕ) (a b : ℕ) : ℕ → Finset ℕ :=
  fun v => if v = a then insert b (nbs v) else nbs v

/-- addTri performs the six symmetric neighbor insertions
FCGALAdjacencyProvider::Build does for one triangle (a, b, c). -/
def addTri (nbs : ℕ → Finset ℕ) (t : ℕ × ℕ × ℕ) : ℕ → Finset ℕ :=
  insNb (insNb (insNb (insNb (insNb (insNb nbs t.1 t.2.1) t.2.1 t.1)
    t.2.1 t.2.2) t.2.2 t.2.1) t.2.2 t.1) t.1 t.2.2

/-- AdjacencyBuild models FCGALAdjacencyProvider::Build (the WITH_PTP_CGAL_LIB
branch).  The external routine ptp_cgal_triangulate is out of scope (spec
section 6 treats the provider's geometry backend as an external collaborator);
its outcome is the parameter triResult: none when the routine reports failure,
some tris for a successful triangulation of tris.length triangles (written).
Failure paths return the error string before any adjacency is produced; on
success each vertex i gets the symmetric triangle neighbors with i itself
removed (TSet::Remove). -/
def AdjacencyBuild (points : List Vec3) (triResult : Option (List (ℕ × ℕ × ℕ))) :
    Except String FPTPAdjacency :=
  if points.length < 4 then Except.error "Insufficient points for triangulation"
  else
    match triResult with
    | none => Except.error "ptp_cgal_triangulate failed"
    | some tris =>
      if tris.length ≤ 0 then Except.error "ptp_cgal_triangulate failed"
      else
        let nbs := tris.foldl addTri (fun _ => ∅)
        Except.ok
          { triangles := tris
            neighbors := (List.range points.length).map (fun i => (nbs i).erase i) }

/-- AdjacencyBuildStub models the stub branch of CGALAdjacencyProvider.cpp
compiled when WITH_PTP_CGAL_LIB is off: it always fails with a description. -/
def AdjacencyBuildStub : Except String FPTPAdjacency :=
  Except.error "CGAL not available (WITH_CGAL=0). Configure vcpkg and rebuild."

/-- FibSpec is the conclusion of the sampler claim for n points at radius
radiusKm: exact count, every point within the stated relative distance
tolerance of the sphere, the golden-angle formula for every index, and the
empty output for any nonpositive count. -/
noncomputable def FibSpec (n : ℤ) (radiusKm : ℝ) : Prop :=
  (GeneratePoints n radiusKm).length = n.toNat ∧
  (∀ p ∈ GeneratePoints n radiusKm,
    |sizeV p - radiusKm| ≤ radiusKm * (1 / 1000)) ∧
  (∀ i, i < n.toNat →
    (GeneratePoints n radiusKm).getD i vzero =
      ⟨Real.sqrt (max 0 (1 - (1 - 2 * (((i : ℝ) + 0.5) / (n : ℝ))) ^ 2)) *
          Real.cos ((i : ℝ) * goldenAngle) * radiusKm,
        (1 - 2 * (((i : ℝ) + 0.5) / (n : ℝ))) * radiusKm,
        Real.sqrt (max 0 (1 - (1 - 2 * (((i : ℝ) + 0.5) / (n : ℝ))) ^ 2)) *
          Real.sin ((i : ℝ) * goldenAngle) * radiusKm⟩) ∧
  (∀ m : ℤ, m ≤ 0 → GeneratePoints m radiusKm = [])

/-- SymmFun states that a neighbor-set function is symmetric. -/
def SymmFun (nbs : ℕ → Finset ℕ) : Prop := ∀ i j, j ∈ nbs i ↔ i ∈ nbs j

/-- AdjacencySpec is the conclusion of the adjacency-provider claim: the
undersized-input and failed-triangulation paths return the stated nonempty
error descriptions (in the Except model no adjacency is produced on error),
the stub always fails with a nonempty description, and every successful build
has a symmetric, self-free neighbor relation. -/
def AdjacencySpec : Prop :=
  (∀ (pts : List Vec3) (tri : Option (List (ℕ × ℕ × ℕ))), pts.length < 4 →
    AdjacencyBuild pts tri = Except.error "Insufficient points for triangulation") ∧
  (∀ pts : List Vec3, ¬ pts.length < 4 →
    AdjacencyBuild pts none = Except.error "ptp_cgal_triangulate failed") ∧
  (∀ pts : List Vec3, ¬ pts.length < 4 →
    AdjacencyBuild pts (some []) = Except.error "ptp_cgal_triangulate failed") ∧
  ("Insufficient points for triangulation" ≠ "" ∧
    "ptp_cgal_triangulate failed" ≠ "") ∧
  (∃ s, AdjacencyBuildStub = Except.error s ∧ s ≠ "") ∧
  (∀ (pts : List Vec3) (tris : List (ℕ × ℕ × ℕ)) (adj : FPTPAdjacency),
    AdjacencyBuild pts (some tris) = Except.ok adj →
      (∀ i j, i < adj.neighbors.length → j < adj.neighbors.length →
        (j ∈ adj.neighbors.getD i ∅ ↔ i ∈ adj.neighbors.getD j ∅)) ∧
      (∀ i, i ∉ adj.neighbors.getD i ∅))

/-- PartitionSpec is the conclusion of the partition claim for
AssignPointsToSeeds: the point-to-plate map has one entry per point, every
entry is a valid plate index, there is one plate list per seed, every point
index appears in the list of its assigned plate, and the concatenation of all
plate lists is a permutation of the full index range (no duplicate, no
omission). -/
noncomputable def PartitionSpec (points seeds : List Vec3) : Prop :=
  (AssignPointsToSeeds points seeds).1.length = points.length ∧
  (∀ v ∈ (AssignPointsToSeeds points seeds).1, v < seeds.length) ∧
  (AssignPointsToSeeds points seeds).2.length = seeds.length ∧
  (∀ i, i < points.length →
    i ∈ (AssignPointsToSeeds points seeds).2.getD
      ((AssignPointsToSeeds points seeds).1.getD i 0) []) ∧
  List.Perm (AssignPointsToSeeds points seeds).2.flatten
    (List.range points.length)

/-- TieBreakSpec is the conclusion of the tie-break claim for one normalized
point pn: the selected seed achieves the maximal dot product and every seed
of strictly smaller index has a strictly smaller dot product, so a tie always
resolves to the lowest maximizing index. -/
noncomputable def TieBreakSpec (pn : Vec3) (seeds : List Vec3) : Prop :=
  bestSeedIdx pn seeds < seeds.length ∧
  (∀ m, m < seeds.length →
    dotV pn (seeds.getD m vzero) ≤
      dotV pn (seeds.getD (bestSeedIdx pn seeds) vzero)) ∧
  (∀ m, m < bestSeedIdx pn seeds →
    dotV pn (seeds.getD m vzero) <
      dotV pn (seeds.getD (bestSeedIdx pn seeds) vzero))

/-- ClassifySpec is the conclusion of the plate-classification claim: the
output has one flag per plate, exactly round(numPlates * continentalFrac)
flags are true, and the plate at position i of the seeded Fisher-Yates
shuffle is continental precisely when i is below that rounded count (so the
continental plates are the first round(numPlates * continentalFrac) entries
of the shuffle). -/
def ClassifySpec (numPlates : ℕ) (continentalFrac : ℚ) (draw : ℕ → ℕ) : Prop :=
  (ClassifyPlates numPlates continentalFrac draw).length = numPlates ∧
  (ClassifyPlates numPlates continentalFrac draw).count true =
    (roundToInt ((numPlates : ℚ) * continentalFrac)).toNat ∧
  (∀ i, i < numPlates →
    (ClassifyPlates numPlates continentalFrac draw).getD
      ((fisherYatesAux draw (numPlates - 1) (List.range numPlates)).getD i 0)
      false =
      decide (i < (roundToInt ((numPlates : ℚ) * continentalFrac)).toNat))

/-- RebuildSpec is the conclusion of the (amended) memoized-rebuild claim:
RebuildPlanet is a no-op exactly when the settings hash matches the cached
hash and the sample output is nonempty, otherwise it runs the full pipeline;
and the hash reads only NumSamplePoints, NumPlates, PlanetRadiusKm and
VisualizationScale, so two configurations agreeing on those four fields
always hash identically, whatever the engine hash primitives are. -/
noncomputable def RebuildSpec : Prop :=
  ∀ (hashCombine : ℕ → ℕ → ℕ) (typeHashInt : ℤ → ℕ) (typeHashFloat : ℝ → ℕ)
    (rng : RngStreams) (st : PlanetState) (c : PTPConfig),
    (ComputeSettingsHash hashCombine typeHashInt typeHashFloat c =
        st.cachedSettingsHash ∧ 0 < st.samplePoints.length →
      RebuildPlanet hashCombine typeHashInt typeHashFloat rng st c = st) ∧
    (¬ (ComputeSettingsHash hashCombine typeHashInt typeHashFloat c =
        st.cachedSettingsHash ∧ 0 < st.samplePoints.length) →
      RebuildPlanet hashCombine typeHashInt typeHashFloat rng st c =
        BuildPlanet rng c
          (ComputeSettingsHash hashCombine typeHashInt typeHashFloat c)) ∧
    (∀ c2 : PTPConfig, c.numSamplePoints = c2.numSamplePoints →
      c.numPlates = c2.numPlates → c.planetRadiusKm = c2.planetRadiusKm →
      c.visualizationScale = c2.visualizationScale →
      ComputeSettingsHash hashCombine typeHashInt typeHashFloat c =
        ComputeSettingsHash hashCombine typeHashInt typeHashFloat c2)

/-- cfgA is a concrete configuration carrying the component defaults of
PTPPlanetComponent.cpp. -/
noncomputable def cfgA : PTPConfig :=
  { numSamplePoints := 500000
    numPlates := 40
    planetRadiusKm := 6370
    visualizationScale := 100
    continentalFrac := 3 / 10
    abyssalPlainElevationKm := -6
    highestOceanicRidgeElevationKm := -1
    maxPlateSpeedMmPerYear := 100
    initialSeed := 12345 }

/-- cfgB differs from cfgA only in the continental fraction, an input that
changes the generated crust output. -/
noncomputable def cfgB : PTPConfig := { cfgA with continentalFrac := 1 / 2 }

/-- hc0 is a concrete instance of the abstract HashCombine primitive. -/
def hc0 : ℕ → ℕ → ℕ := fun a b => 2 * a + b

/-- hInt0 is a concrete instance of the abstract integer GetTypeHash. -/
def hInt0 : ℤ → ℕ := Int.toNat

/-- hFloat0 is a concrete instance of the abstract float GetTypeHash. -/
noncomputable def hFloat0 : ℝ → ℕ := fun _ => 0

/-- rng0 is a concrete random-stream bundle. -/
noncomputable def rng0 : RngStreams :=
  { classifyDraw := fun _ => 0
    localRand := fun _ _ => 0
    axisDraw := fun _ => ⟨1, 0, 0⟩
    omegaDraw := fun _ => 0 }

/-- st0 is a planet state whose cached hash is the hash of cfgA and whose
sample output is nonempty, as left behind by a completed rebuild under
cfgA. -/
noncomputable def st0 : PlanetState :=
  { cachedSettingsHash := ComputeSettingsHash hc0 hInt0 hFloat0 cfgA
    samplePoints := [vzero]
    numGeneratedPoints := 1
    plates := []
    pointPlateIds := []
    crustData := []
    numPlatesGenerated := 0 }

/-- OceanicCrustSpec is the conclusion of the oceanic-crust claim for the
point pointIdx of plate plateIdx: the crust record InitializeCrustData stores
there is oceanic with 7 km thickness, its elevation is the linear
interpolation from the configured ridge elevation (at d = 0) to the
abyssal-plain elevation (at d = 1), and its age is d * 200 My, where d is the
geodesic angle arccos(clamp(dot(point, centroid), -1, 1)) divided by pi/4 and
clamped to [0, 1]. -/
noncomputable def OceanicCrustSpec (samplePoints : List Vec3)
    (plateToPoints : List (List ℕ)) (continentalFrac : ℚ)
    (abyssalKm ridgeKm : ℝ) (classifyDraw : ℕ → ℕ) (localRand : ℕ → ℕ → ℝ)
    (plateIdx pointIdx : ℕ) : Prop :=
  let centroid := plateCentroid samplePoints (plateToPoints.getD plateIdx [])
  let d := clampR
    (Real.arccos (clampR (dotV (samplePoints.getD pointIdx vzero) centroid)
      (-1) 1) / (Real.pi / 4)) 0 1
  let crust := (InitializeCrustData samplePoints plateToPoints continentalFrac
    abyssalKm ridgeKm classifyDraw localRand).getD pointIdx defaultCrustData
  crust.crustType = ECrustType.Oceanic ∧
  crust.thickness = 7 ∧
  crust.elevation = lerpR ridgeKm abyssalKm d ∧
  crust.oceanicAge = d * 200

/-- DynamicsSpec is the conclusion of the plate-dynamics claim: every plate
written by InitializePlateDynamics has a unit rotation axis, an angular
velocity within [-vmax/R, vmax/R], and a surface velocity of magnitude at
most vmax at every point at distance R from the origin. -/
noncomputable def DynamicsSpec (planetRadiusKm maxPlateSpeedMmPerYear : ℝ)
    (axisDraw : ℕ → Vec3) (omegaDraw : ℕ → ℝ)
    (outPlates : List FTectonicPlate) : Prop :=
  ∀ plate ∈ InitializePlateDynamics planetRadiusKm maxPlateSpeedMmPerYear
      axisDraw omegaDraw outPlates,
    sizeV plate.rotationAxis = 1 ∧
    -(maxPlateSpeedMmPerYear / planetRadiusKm) ≤ plate.angularVelocity ∧
    plate.angularVelocity ≤ maxPlateSpeedMmPerYear / planetRadiusKm ∧
    ∀ p : Vec3, sizeSquared p = planetRadiusKm ^ 2 →
      sizeV (GetVelocityAtPoint plate p) ≤ maxPlateSpeedMmPerYear

/-- AssignSafetySpec is the conclusion of the memory-safety claim: with at
least one point and no seed the checked rendering hits the out-of-bounds
bucket access (none), BestIdx indeed stays 0 on an empty seed list, and with
at least one seed every access is in bounds (some result). -/
noncomputable def AssignSafetySpec : Prop :=
  (∀ points seeds : List Vec3, 0 < points.length → seeds.length = 0 →
    AssignPointsToSeedsChecked points seeds = none) ∧
  (∀ pn : Vec3, bestSeedIdx pn [] = 0) ∧
  (∀ points seeds : List Vec3, 1 ≤ seeds.length →
    (AssignPointsToSeedsChecked points seeds).isSome = true)

end Gaia

namespace Gaia

theorem length_GeneratePoints_pos {n : ℤ} (radiusKm : ℝ) (hn : 0 < n) :
    (GeneratePoints n radiusKm).length = n.toNat := by
  rw [GeneratePoints, if_neg (not_le.mpr hn)]
  simp

theorem sizeSquared_fibPoint {n : ℤ} (radiusKm : ℝ) {i : ℕ}
    (hn : 0 < n) (hi : i < n.toNat) :
    sizeSquared (fibPoint n radiusKm i) = radiusKm ^ 2 := by
  have hnR : (0 : ℝ) < (n : ℝ) := by exact_mod_cast hn
  have hiR : (i : ℝ) + 1 ≤ (n : ℝ) := by
    have h1 : (i : ℤ) + 1 ≤ n := by
      have := Int.toNat_of_nonneg hn.le
      omega
    exact_mod_cast h1
  unfold fibPoint sizeSquared
  set t : ℝ := ((i : ℝ) + 0.5) / (n : ℝ) with ht
  set y : ℝ := 1 - 2 * t with hy
  have ht0 : 0 < t := by
    apply div_pos _ hnR
    positivity
  have ht1 : t < 1 := by
    rw [ht, div_lt_one hnR]
    norm_num
    linarith
  have hyy : y * y ≤ 1 := by nlinarith
  have hmax : max 0 (1 - y * y) = 1 - y * y := max_eq_right (by linarith)
  set r : ℝ := Real.sqrt (max 0 (1 - y * y)) with hrdef
  have hr2 : r * r = 1 - y * y := by
    rw [hrdef, hmax]
    exact Real.mul_self_sqrt (by linarith)
  set c : ℝ := Real.cos (goldenAngle * (i : ℝ)) with hc
  set s : ℝ := Real.sin (goldenAngle * (i : ℝ)) with hs
  have hcs : s * s + c * c = 1 := by
    have := Real.sin_sq_add_cos_sq (goldenAngle * (i : ℝ))
    rw [hc, hs]
    nlinarith [this]
  have hexp : r * c * radiusKm * (r * c * radiusKm) + y * radiusKm * (y * radiusKm) +
      r * s * radiusKm * (r * s * radiusKm) =
      (r * r) * (s * s + c * c) * radiusKm ^ 2 + (y * y) * radiusKm ^ 2 := by
    ring
  rw [hexp, hr2, hcs]
  ring

theorem sizeV_fibPoint {n : ℤ} {radiusKm : ℝ} {i : ℕ}
    (hn : 0 < n) (hr : 0 ≤ radiusKm) (hi : i < n.toNat) :
    sizeV (fibPoint n radiusKm i) = radiusKm := by
  rw [sizeV, sizeSquared_fibPoint radiusKm hn hi, Real.sqrt_sq hr]

/-- Claim C5: for n greater 0 and radius greater 0, GeneratePoints returns
exactly n points, each at distance radiusKm from the origin (within the
relative tolerance 1e-3, here proved from the exact-arithmetic equality),
each given by the golden-angle spiral formula, and for nonpositive counts it
returns the empty sequence rather than an error. -/
theorem claim_C5 (n : ℤ) (radiusKm : ℝ) (hn : 0 < n) (hr : 0 < radiusKm) :
    FibSpec n radiusKm := by
  refine ⟨length_GeneratePoints_pos radiusKm hn, ?_, ?_, ?_⟩
  · intro p hp
    rw [GeneratePoints, if_neg (not_le.mpr hn)] at hp
    obtain ⟨i, hi, rfl⟩ := List.mem_map.mp hp
    rw [sizeV_fibPoint hn hr.le (List.mem_range.mp hi)]
    simp only [sub_self, abs_zero]
    positivity
  · intro i hi
    have hlen : i < (GeneratePoints n radiusKm).length := by
      rw [length_GeneratePoints_pos radiusKm hn]; exact hi
    rw [List.getD_eq_getElem _ _ hlen]
    have : (GeneratePoints n radiusKm)[i] = fibPoint n radiusKm i := by
      simp [GeneratePoints, if_neg (not_le.mpr hn)]
    rw [this]
    unfold fibPoint
    have harg : goldenAngle * (i : ℝ) = (i : ℝ) * goldenAngle := mul_comm _ _
    have hsq : ∀ a : ℝ, a * a = a ^ 2 := fun a => (sq a).symm
    simp only [harg, hsq]
  · intro m hm
    rw [GeneratePoints, if_pos hm]

/-- Witness for claim C5 at n = 3, radius 1. -/
theorem claim_C5_witness : (0 : ℤ) < 3 ∧ (0 : ℝ) < 1 ∧ FibSpec 3 1 :=
  ⟨by decide, by norm_num, claim_C5 3 1 (by decide) (by norm_num)⟩

theorem detect_getD (ids : List ℤ) (nbrs : List (List ℤ)) (i : ℕ)
    (hi : i < ids.length) :
    (DetectPlateBoundaries ids nbrs).getD i false =
      (nbrs.getD i []).any (fun nIdx =>
        isValidIndexZ ids.length nIdx &&
        decide (ids.getD nIdx.toNat 0 ≠ ids.getD i 0)) := by
  unfold DetectPlateBoundaries
  rw [List.getD_eq_getElem _ _ (by simpa using hi)]
  simp

/-- Claim C6: a point is flagged as boundary iff some listed neighbor with a
valid index belongs to a different plate; a missing neighbor list yields a
non-boundary flag; and the six-point chain scenario produces the stated
flags. -/
theorem claim_C6 :
    (∀ (ids : List ℤ) (nbrs : List (List ℤ)) (i : ℕ), i < ids.length →
      ((DetectPlateBoundaries ids nbrs).getD i false = true ↔
        ∃ n ∈ nbrs.getD i [], 0 ≤ n ∧ n < (ids.length : ℤ) ∧
          ids.getD n.toNat 0 ≠ ids.getD i 0)) ∧
    (∀ (ids : List ℤ) (nbrs : List (List ℤ)) (i : ℕ), nbrs.length ≤ i →
      (DetectPlateBoundaries ids nbrs).getD i false = false) ∧
    DetectPlateBoundaries [0, 0, 0, 1, 1, 1]
        [[1], [0, 2], [1, 3], [2, 4], [3, 5], [4]] =
      [false, false, true, true, false, false] := by
  refine ⟨?_, ?_, by decide⟩
  · intro ids nbrs i hi
    rw [detect_getD ids nbrs i hi, List.any_eq_true]
    simp only [isValidIndexZ, Bool.and_eq_true, decide_eq_true_eq]
    tauto
  · intro ids nbrs i hnb
    by_cases hi : i < ids.length
    · rw [detect_getD ids nbrs i hi]
      rw [List.getD_eq_default _ _ hnb]
      simp
    · have hlen : (DetectPlateBoundaries ids nbrs).length = ids.length := by
        simp [DetectPlateBoundaries]
      exact List.getD_eq_default _ _ (by omega)

/-- Witness for claim C6: the iff instantiated on a two-point example. -/
theorem claim_C6_witness :
    (0 : ℕ) < ([0, 1] : List ℤ).length ∧
    ((DetectPlateBoundaries [0, 1] [[1], [0]]).getD 0 false = true ↔
      ∃ n ∈ ([[1], [0]] : List (List ℤ)).getD 0 [], 0 ≤ n ∧
        n < (([0, 1] : List ℤ).length : ℤ) ∧
        ([0, 1] : List ℤ).getD n.toNat 0 ≠ ([0, 1] : List ℤ).getD 0 0) :=
  ⟨by decide, claim_C6.1 [0, 1] [[1], [0]] 0 (by decide)⟩

theorem SymmFun_insPair {nbs : ℕ → Finset ℕ} (h : SymmFun nbs) (a b : ℕ) :
    SymmFun (insNb (insNb nbs a b) b a) := by
  intro i j
  have hij := h i j
  simp only [insNb]
  by_cases hib : i = b <;> by_cases hjb : j = b <;>
    by_cases hia : i = a <;> by_cases hja : j = a <;>
    simp_all [Finset.mem_insert]

theorem SymmFun_addTri {nbs : ℕ → Finset ℕ} (h : SymmFun nbs)
    (t : ℕ × ℕ × ℕ) : SymmFun (addTri nbs t) :=
  SymmFun_insPair (SymmFun_insPair (SymmFun_insPair h t.1 t.2.1) t.2.1 t.2.2)
    t.2.2 t.1

theorem SymmFun_foldl (tris : List (ℕ × ℕ × ℕ)) :
    ∀ nbs : ℕ → Finset ℕ, SymmFun nbs → SymmFun (tris.foldl addTri nbs) := by
  induction tris with
  | nil => intro nbs h; exact h
  | cons t rest ih => intro nbs h; exact ih _ (SymmFun_addTri h t)

/-- Claim C9: the adjacency provider fails explicitly with a nonempty error
description on fewer than 4 points, on an unavailable backend (the stub) and
on a reported triangulation failure, producing no adjacency in those cases;
on success the neighbor relation is symmetric and self-free. -/
theorem claim_C9 : AdjacencySpec := by
  have hone : ∀ (pts : List Vec3) (tris : List (ℕ × ℕ × ℕ))
      (adj : FPTPAdjacency), AdjacencyBuild pts (some tris) = Except.ok adj →
      adj = { triangles := tris
              neighbors := (List.range pts.length).map
                (fun i => ((tris.foldl addTri (fun _ => ∅)) i).erase i) } := by
    intro pts tris adj h
    unfold AdjacencyBuild at h
    by_cases h4 : pts.length < 4
    · rw [if_pos h4] at h
      exact absurd h (by simp)
    · rw [if_neg h4] at h
      dsimp only at h
      by_cases hlen : tris.length ≤ 0
      · rw [if_pos hlen] at h
        exact absurd h (by simp)
      · rw [if_neg hlen] at h
        simp only [Except.ok.injEq] at h
        exact h.symm
  refine ⟨?_, ?_, ?_, ⟨by decide, by decide⟩, ⟨_, rfl, by decide⟩, ?_⟩
  · intro pts tri h
    unfold AdjacencyBuild
    rw [if_pos h]
  · intro pts h
    unfold AdjacencyBuild
    rw [if_neg h]
  · intro pts h
    unfold AdjacencyBuild
    rw [if_neg h]
    simp
  · intro pts tris adj h
    have hadj := hone pts tris adj h
    subst hadj
    have hsymm : SymmFun (tris.foldl addTri (fun _ => ∅)) :=
      SymmFun_foldl tris _ (fun i j => by simp)
    constructor
    · intro i j hi hj
      simp only [List.length_map, List.length_range] at hi hj
      rw [List.getD_eq_getElem _ _ (by simpa using hi),
        List.getD_eq_getElem _ _ (by simpa using hj)]
      simp only [List.getElem_map, List.getElem_range]
      rw [Finset.mem_erase, Finset.mem_erase]
      constructor
      · rintro ⟨hne, hmem⟩
        exact ⟨fun he => hne he.symm, (hsymm i j).mp hmem⟩
      · rintro ⟨hne, hmem⟩
        exact ⟨fun he => hne he.symm, (hsymm i j).mpr hmem⟩
    · intro i
      by_cases hi : i < pts.length
      · rw [List.getD_eq_getElem _ _ (by simpa using hi)]
        simp only [List.getElem_map, List.getElem_range]
        exact Finset.not_mem_erase i _
      · rw [List.getD_eq_default _ _ (by simpa using hi)]
        exact Finset.not_mem_empty i

/-- Witness for claim C9: the undersized-input branch at the empty point
list, through the claim theorem. -/
theorem claim_C9_witness :
    ([] : List Vec3).length < 4 ∧
    AdjacencyBuild [] none = Except.error "Insufficient points for triangulation" :=
  ⟨by decide, claim_C9.1 [] none (by decide)⟩

theorem bestSeedAux_fst_bound (pn : Vec3) :
    ∀ (l : List Vec3) (j : ℕ) (st : ℕ × ℝ),
      (bestSeedAux pn l j st).1 = st.1 ∨
      (j ≤ (bestSeedAux pn l j st).1 ∧
        (bestSeedAux pn l j st).1 < j + l.length) := by
  intro l
  induction l with
  | nil => intro j st; left; rfl
  | cons s rest ih =>
    intro j st
    simp only [bestSeedAux]
    by_cases hd : st.2 < dotV pn s
    · rw [if_pos hd]
      rcases ih (j + 1) (j, dotV pn s) with h | h
      · right
        rw [h]
        simp only [List.length_cons]
        omega
      · right
        simp only [List.length_cons]
        omega
    · rw [if_neg hd]
      rcases ih (j + 1) st with h | h
      · left; exact h
      · right
        simp only [List.length_cons]
        omega

theorem bestSeedAux_spec (pn : Vec3) :
    ∀ (l : List Vec3) (j : ℕ) (st : ℕ × ℝ),
      (bestSeedAux pn l j st = st ∧
        ∀ k, k < l.length → dotV pn (l.getD k vzero) ≤ st.2) ∨
      (∃ k, k < l.length ∧
        (bestSeedAux pn l j st).1 = j + k ∧
        (bestSeedAux pn l j st).2 = dotV pn (l.getD k vzero) ∧
        st.2 < (bestSeedAux pn l j st).2 ∧
        (∀ m, m < l.length →
          dotV pn (l.getD m vzero) ≤ (bestSeedAux pn l j st).2) ∧
        (∀ m, m < k → dotV pn (l.getD m vzero) < (bestSeedAux pn l j st).2)) := by
  intro l
  induction l with
  | nil =>
    intro j st
    left
    exact ⟨rfl, fun k hk => absurd hk (by simp)⟩
  | cons s rest ih =>
    intro j st
    simp only [bestSeedAux]
    by_cases hd : st.2 < dotV pn s
    · rw [if_pos hd]
      rcases ih (j + 1) (j, dotV pn s) with ⟨heq, hall⟩ |
        ⟨k, hk, hfst, hsnd, hlt, hall, hfirst⟩
      · right
        rw [heq]
        refine ⟨0, by simp, by simp, by simp, hd, ?_, by omega⟩
        intro m hm
        match m with
        | 0 => simp
        | Nat.succ m' =>
          rw [List.getD_cons_succ]
          exact hall m' (by simpa using hm)
      · right
        refine ⟨k + 1, by simpa using hk, by omega, ?_, ?_, ?_, ?_⟩
        · rw [List.getD_cons_succ]; exact hsnd
        · exact lt_trans hd hlt
        · intro m hm
          match m with
          | 0 =>
            rw [List.getD_cons_zero]
            exact le_of_lt hlt
          | Nat.succ m' =>
            rw [List.getD_cons_succ]
            exact hall m' (by simpa using hm)
        · intro m hm
          match m with
          | 0 =>
            rw [List.getD_cons_zero]
            exact hlt
          | Nat.succ m' =>
            rw [List.getD_cons_succ]
            exact hfirst m' (by omega)
    · rw [if_neg hd]
      rcases ih (j + 1) st with ⟨heq, hall⟩ |
        ⟨k, hk, hfst, hsnd, hlt, hall, hfirst⟩
      · left
        refine ⟨heq, ?_⟩
        intro k hk
        match k with
        | 0 =>
          rw [List.getD_cons_zero]
          exact not_lt.mp hd
        | Nat.succ k' =>
          rw [List.getD_cons_succ]
          exact hall k' (by simpa using hk)
      · right
        refine ⟨k + 1, by simpa using hk, by omega, ?_, hlt, ?_, ?_⟩
        · rw [List.getD_cons_succ]; exact hsnd
        · intro m hm
          match m with
          | 0 =>
            rw [List.getD_cons_zero]
            exact le_of_lt (lt_of_le_of_lt (not_lt.mp hd) hlt)
          | Nat.succ m' =>
            rw [List.getD_cons_succ]
            exact hall m' (by simpa using hm)
        · intro m hm
          match m with
          | 0 =>
            rw [List.getD_cons_zero]
            exact lt_of_le_of_lt (not_lt.mp hd) hlt
          | Nat.succ m' =>
            rw [List.getD_cons_succ]
            exact hfirst m' (by omega)

theorem bestSeedIdx_lt {pn : Vec3} {seeds : List Vec3} (hs : seeds ≠ []) :
    bestSeedIdx pn seeds < seeds.length := by
  have hlen : 0 < seeds.length := List.length_pos.mpr hs
  unfold bestSeedIdx
  rcases bestSeedAux_fst_bound pn seeds 0 (0, -fltMax) with h | h
  · rw [h]; exact hlen
  · omega

theorem bucketsAux_length :
    ∀ (pairs : List (ℕ × ℕ)) (b : List (List ℕ)),
      (bucketsAux pairs b).length = b.length := by
  intro pairs
  induction pairs with
  | nil => intro b; rfl
  | cons pr rest ih =>
    intro b
    have hstep : bucketsAux (pr :: rest) b =
        bucketsAux rest (b.set pr.2 (b.getD pr.2 [] ++ [pr.1])) := rfl
    rw [hstep, ih, List.length_set]

theorem getD_set_ne {α : Type} (b : List α) (k j : ℕ) (v d : α) (hne : j ≠ k) :
    (b.set k v).getD j d = b.getD j d := by
  by_cases hj : j < b.length
  · rw [List.getD_eq_getElem _ _ (by simpa using hj),
      List.getD_eq_getElem _ _ hj]
    rw [List.getElem_set]
    rw [if_neg (fun h => hne h.symm)]
  · rw [List.getD_eq_default _ _ (by simpa using hj),
      List.getD_eq_default _ _ (by simpa using hj)]

theorem bucketsAux_mem_mono :
    ∀ (pairs : List (ℕ × ℕ)) (b : List (List ℕ)) (j x : ℕ),
      x ∈ b.getD j [] → x ∈ (bucketsAux pairs b).getD j [] := by
  intro pairs
  induction pairs with
  | nil => intro b j x hx; exact hx
  | cons pr rest ih =>
    intro b j x hx
    simp only [bucketsAux, List.foldl_cons]
    apply ih
    by_cases hk : j = pr.2
    · rw [hk] at hx ⊢
      by_cases hj : pr.2 < b.length
      · rw [List.getD_eq_getElem _ _ (by simpa using hj), List.getElem_set,
          if_pos rfl]
        exact List.mem_append.mpr (Or.inl hx)
      · rw [List.set_eq_of_length_le (by omega)]
        exact hx
    · rw [getD_set_ne _ _ _ _ _ hk]
      exact hx

theorem bucketsAux_mem :
    ∀ (pairs : List (ℕ × ℕ)) (b : List (List ℕ)) (i k : ℕ),
      (i, k) ∈ pairs → k < b.length → i ∈ (bucketsAux pairs b).getD k [] := by
  intro pairs
  induction pairs with
  | nil => intro b i k h; exact absurd h (by simp)
  | cons pr rest ih =>
    intro b i k hmem hk
    simp only [bucketsAux, List.foldl_cons]
    rcases List.mem_cons.mp hmem with heq | hrest
    · have hpr : pr = (i, k) := heq.symm
      subst hpr
      apply bucketsAux_mem_mono
      rw [List.getD_eq_getElem _ _ (by simpa using hk), List.getElem_set,
        if_pos rfl]
      exact List.mem_append.mpr (Or.inr (by simp))
    · exact ih _ i k hrest (by simpa using hk)

theorem set_flatten_perm (b : List (List ℕ)) (k : ℕ) (i : ℕ)
    (hk : k < b.length) :
    List.Perm (b.set k (b.getD k [] ++ [i])).flatten (b.flatten ++ [i]) := by
  have hsplit : b.flatten =
      ((b.take k).flatten ++ b.getD k []) ++ (b.drop (k + 1)).flatten := by
    conv_lhs => rw [← List.take_append_drop k b]
    rw [List.drop_eq_getElem_cons hk, List.flatten_append, List.flatten_cons,
      List.getD_eq_getElem _ _ hk, List.append_assoc]
  refine List.perm_iff_count.mpr fun a => ?_
  rw [List.set_eq_take_append_cons_drop, if_pos hk]
  rw [List.flatten_append, List.flatten_cons]
  rw [hsplit]
  simp only [List.count_append]
  omega

theorem bucketsAux_flatten_perm :
    ∀ (pairs : List (ℕ × ℕ)) (b : List (List ℕ)),
      (∀ pr ∈ pairs, pr.2 < b.length) →
      List.Perm (bucketsAux pairs b).flatten (b.flatten ++ pairs.map Prod.fst) := by
  intro pairs
  induction pairs with
  | nil => intro b _; simp [bucketsAux]
  | cons pr rest ih =>
    intro b hvalid
    have hk : pr.2 < b.length := hvalid pr (by simp)
    simp only [bucketsAux, List.foldl_cons]
    have h1 : List.Perm (bucketsAux rest
        (b.set pr.2 (b.getD pr.2 [] ++ [pr.1]))).flatten
        ((b.set pr.2 (b.getD pr.2 [] ++ [pr.1])).flatten ++ rest.map Prod.fst) := by
      apply ih
      intro q hq
      rw [List.length_set]
      exact hvalid q (List.mem_cons_of_mem _ hq)
    refine List.Perm.trans h1 ?_
    have h2 := (set_flatten_perm b pr.2 pr.1 hk).append_right (rest.map Prod.fst)
    refine List.Perm.trans h2 ?_
    rw [List.append_assoc]
    simp

theorem mem_enum_snd {α : Type} {l : List α} {pr : ℕ × α} (h : pr ∈ l.enum) :
    pr.2 ∈ l := by
  have := List.mem_map_of_mem Prod.snd h
  rwa [List.enum_map_snd] at this

/-- Claim C4: with a nonempty seed list, AssignPointsToSeeds assigns every
point index to exactly one plate: the map has one in-range entry per point,
each point appears in its assigned plate's list, and the plate lists together
form a duplicate-free, omission-free partition of the index range. -/
theorem claim_C4 (points seeds : List Vec3) (hs : seeds ≠ []) :
    PartitionSpec points seeds := by
  have hM : 0 < seeds.length := List.length_pos.mpr hs
  set asgn := points.map (fun p => bestSeedIdx (safeNormal p) seeds) with hasgn
  have hassign : AssignPointsToSeeds points seeds =
      (asgn, bucketsAux asgn.enum (List.replicate seeds.length [])) := rfl
  have hlenA : asgn.length = points.length := by simp [hasgn]
  have hentries : ∀ v ∈ asgn, v < seeds.length := by
    intro v hv
    obtain ⟨p, _, rfl⟩ := List.mem_map.mp hv
    exact bestSeedIdx_lt hs
  refine ⟨by simp [hassign, hlenA], ?_, ?_, ?_, ?_⟩
  · intro v hv
    exact hentries v (by simpa [hassign] using hv)
  · rw [hassign]
    rw [show (asgn, bucketsAux asgn.enum (List.replicate seeds.length [])).2 =
      bucketsAux asgn.enum (List.replicate seeds.length []) from rfl]
    rw [bucketsAux_length]
    simp
  · intro i hi
    rw [hassign]
    have hiA : i < asgn.length := by omega
    have hgd : asgn.getD i 0 = asgn[i] := List.getD_eq_getElem _ _ hiA
    rw [show (asgn, bucketsAux asgn.enum (List.replicate seeds.length [])).1 =
      asgn from rfl, show (asgn, bucketsAux asgn.enum
        (List.replicate seeds.length [])).2 =
      bucketsAux asgn.enum (List.replicate seeds.length []) from rfl]
    rw [hgd]
    apply bucketsAux_mem
    · have hEi : i < asgn.enum.length := by
        rw [List.enum_length]; exact hiA
      have := List.getElem_enum asgn i hEi
      rw [← this]
      exact List.getElem_mem hEi
    · rw [List.length_replicate]
      exact hentries _ (List.getElem_mem hiA)
  · rw [hassign]
    rw [show (asgn, bucketsAux asgn.enum (List.replicate seeds.length [])).2 =
      bucketsAux asgn.enum (List.replicate seeds.length []) from rfl]
    have hvalid : ∀ pr ∈ asgn.enum, pr.2 < (List.replicate
        (seeds.length) ([] : List ℕ)).length := by
      intro pr hpr
      rw [List.length_replicate]
      exact hentries pr.2 (mem_enum_snd hpr)
    have h1 := bucketsAux_flatten_perm asgn.enum _ hvalid
    have h2 : (List.replicate seeds.length ([] : List ℕ)).flatten = [] := by
      simp
    rw [h2, List.nil_append, List.enum_map_fst, hlenA] at h1
    exact h1

/-- Witness for claim C4 at one point and one seed. -/
theorem claim_C4_witness :
    ([⟨1, 0, 0⟩] : List Vec3) ≠ [] ∧ PartitionSpec [⟨1, 0, 0⟩] [⟨1, 0, 0⟩] :=
  ⟨by simp, claim_C4 [⟨1, 0, 0⟩] [⟨1, 0, 0⟩] (by simp)⟩

/-- Claim C8: the assignment loop resolves every tie to the lowest seed index
among the maximizers: whenever some seed has dot product above the -FLT_MAX
sentinel, the chosen index attains the maximum dot product and every smaller
index has a strictly smaller dot product; and the per-point entry of
AssignPointsToSeeds is exactly that chosen index. -/
theorem claim_C8 (points seeds : List Vec3) (i : ℕ) (hi : i < points.length)
    (hex : ∃ k, k < seeds.length ∧
      -fltMax < dotV (safeNormal (points.getD i vzero)) (seeds.getD k vzero)) :
    (AssignPointsToSeeds points seeds).1.getD i 0 =
      bestSeedIdx (safeNormal (points.getD i vzero)) seeds ∧
    TieBreakSpec (safeNormal (points.getD i vzero)) seeds := by
  obtain ⟨k0, hk0, hdk0⟩ := hex
  set pn := safeNormal (points.getD i vzero) with hpn
  constructor
  · show (points.map (fun p => bestSeedIdx (safeNormal p) seeds)).getD i 0 = _
    rw [List.getD_eq_getElem _ _ (by simpa using hi), List.getElem_map, hpn,
      List.getD_eq_getElem _ _ hi]
  · rcases bestSeedAux_spec pn seeds 0 (0, -fltMax) with ⟨heq, hall⟩ |
      ⟨k, hk, hfst, hsnd, hlt, hall, hfirst⟩
    · exact absurd (hall k0 hk0) (by simpa using hdk0)
    · have hbest : bestSeedIdx pn seeds = k := by
        unfold bestSeedIdx
        omega
      refine ⟨?_, ?_, ?_⟩
      · rw [hbest]; exact hk
      · intro m hm
        rw [hbest, ← hsnd]
        exact hall m hm
      · intro m hm
        rw [hbest] at hm
        rw [hbest, ← hsnd]
        exact hfirst m hm

/-- Witness for claim C8 at one point and two tied seeds. -/
theorem claim_C8_witness :
    ((0 : ℕ) < ([⟨1, 0, 0⟩] : List Vec3).length ∧
      ∃ k, k < ([⟨0, 1, 0⟩, ⟨0, 1, 0⟩] : List Vec3).length ∧
        -fltMax < dotV (safeNormal (([⟨1, 0, 0⟩] : List Vec3).getD 0 vzero))
          (([⟨0, 1, 0⟩, ⟨0, 1, 0⟩] : List Vec3).getD k vzero)) ∧
    ((AssignPointsToSeeds [⟨1, 0, 0⟩] [⟨0, 1, 0⟩, ⟨0, 1, 0⟩]).1.getD 0 0 =
      bestSeedIdx (safeNormal (([⟨1, 0, 0⟩] : List Vec3).getD 0 vzero))
        [⟨0, 1, 0⟩, ⟨0, 1, 0⟩] ∧
    TieBreakSpec (safeNormal (([⟨1, 0, 0⟩] : List Vec3).getD 0 vzero))
      [⟨0, 1, 0⟩, ⟨0, 1, 0⟩]) := by
  have hhyp : ∃ k, k < ([⟨0, 1, 0⟩, ⟨0, 1, 0⟩] : List Vec3).length ∧
      -fltMax < dotV (safeNormal (([⟨1, 0, 0⟩] : List Vec3).getD 0 vzero))
        (([⟨0, 1, 0⟩, ⟨0, 1, 0⟩] : List Vec3).getD k vzero) := by
    refine ⟨0, by norm_num, ?_⟩
    have h1 : dotV (safeNormal (([⟨1, 0, 0⟩] : List Vec3).getD 0 vzero))
        (([⟨0, 1, 0⟩, ⟨0, 1, 0⟩] : List Vec3).getD 0 vzero) =
        dotV (safeNormal ⟨1, 0, 0⟩) ⟨0, 1, 0⟩ := rfl
    have h2 : sizeSquared (⟨1, 0, 0⟩ : Vec3) = 1 := by
      simp [sizeSquared]
    have h3 : safeNormal ⟨1, 0, 0⟩ = vscale ⟨1, 0, 0⟩ (Real.sqrt 1)⁻¹ := by
      rw [safeNormal, h2, if_neg (by rw [smallNumber]; norm_num)]
    have h4 : dotV (vscale ⟨1, 0, 0⟩ (Real.sqrt 1)⁻¹) ⟨0, 1, 0⟩ = 0 := by
      simp [dotV, vscale]
    rw [h1, h3, h4, fltMax]
    norm_num
  exact ⟨⟨by norm_num, hhyp⟩,
    claim_C8 [⟨1, 0, 0⟩] [⟨0, 1, 0⟩, ⟨0, 1, 0⟩] 0 (by norm_num) hhyp⟩

theorem assignCheckedAux_isSome (seeds : List Vec3) (hs : seeds ≠ []) :
    ∀ (pairs : List (ℕ × Vec3)) (st : List ℕ × List (List ℕ)),
      st.2.length = seeds.length →
      (assignCheckedAux seeds pairs st).isSome = true := by
  intro pairs
  induction pairs with
  | nil => intro st _; rfl
  | cons pr rest ih =>
    intro st hlen
    obtain ⟨i, p⟩ := pr
    simp only [assignCheckedAux]
    rw [if_pos (by rw [hlen]; exact bestSeedIdx_lt hs)]
    apply ih
    simp [hlen]

/-- Claim C10: with at least one point and no seed, the checked rendering of
AssignPointsToSeeds reaches the out-of-bounds bucket access (BestIdx stays 0
and the plate-to-points array is empty); with at least one seed every access
is in bounds and the function completes. -/
theorem claim_C10 : AssignSafetySpec := by
  refine ⟨?_, ?_, ?_⟩
  · intro points seeds hp hs
    rw [List.length_eq_zero] at hs
    subst hs
    obtain ⟨p, rest, rfl⟩ : ∃ p rest, points = p :: rest := by
      match points, hp with
      | p :: rest, _ => exact ⟨p, rest, rfl⟩
    rw [AssignPointsToSeedsChecked, List.enum_cons]
    simp only [assignCheckedAux, List.replicate]
    rw [if_neg (by simp)]
  · intro pn; rfl
  · intro points seeds hs
    apply assignCheckedAux_isSome seeds
      (fun h => by simp [h] at hs)
    simp

/-- Witness for claim C10: the out-of-bounds branch instantiated at one point
and no seed, through the claim theorem. -/
theorem claim_C10_witness :
    ((0 : ℕ) < ([⟨1, 0, 0⟩] : List Vec3).length ∧
      ([] : List Vec3).length = 0) ∧
    AssignPointsToSeedsChecked [⟨1, 0, 0⟩] [] = none :=
  ⟨⟨by norm_num, rfl⟩, claim_C10.1 [⟨1, 0, 0⟩] [] (by norm_num) rfl⟩

theorem swapTA_perm {l : List ℕ} {i j : ℕ} (hi : i < l.length)
    (hj : j < l.length) : List.Perm (swapTA l i j) l := by
  refine List.perm_iff_count.mpr fun a => ?_
  unfold swapTA
  rw [List.getD_eq_getElem _ _ hj, List.getD_eq_getElem _ _ hi]
  have hj2 : j < (l.set i l[j]).length := by simpa using hj
  rw [List.count_set _ _ _ _ hj2, List.count_set _ _ _ _ hi]
  have hset : (l.set i l[j])[j] = l[j] := by
    rw [List.getElem_set]
    exact ite_self _
  rw [hset]
  have hci : l[i] = a → 1 ≤ List.count a l := fun h =>
    List.count_pos_iff.mpr (h ▸ List.getElem_mem hi)
  have hcj : l[j] = a → 1 ≤ List.count a l := fun h =>
    List.count_pos_iff.mpr (h ▸ List.getElem_mem hj)
  by_cases h1 : l[i] = a <;> by_cases h2 : l[j] = a
  · have := hci h1
    simp only [h1, h2, beq_self_eq_true, if_true]
    omega
  · have := hci h1
    simp only [h1, beq_self_eq_true, if_true, beq_iff_eq, if_neg h2]
    omega
  · have := hcj h2
    simp only [h2, beq_self_eq_true, if_true, beq_iff_eq, if_neg h1]
    omega
  · simp only [beq_iff_eq, if_neg h1, if_neg h2]
    omega

theorem fisherYatesAux_perm (draw : ℕ → ℕ) (hdraw : ∀ i, draw i ≤ i) :
    ∀ (k : ℕ) (l : List ℕ), k < l.length →
      List.Perm (fisherYatesAux draw k l) l := by
  intro k
  induction k with
  | zero => intro l _; exact List.Perm.refl l
  | succ k ih =>
    intro l hk
    have hstep : fisherYatesAux draw (k + 1) l =
        fisherYatesAux draw k (swapTA l (k + 1) (draw (k + 1))) := rfl
    have hlen : (swapTA l (k + 1) (draw (k + 1))).length = l.length := by
      unfold swapTA
      simp
    have hperm : List.Perm (swapTA l (k + 1) (draw (k + 1))) l :=
      swapTA_perm hk (Nat.lt_of_le_of_lt (hdraw (k + 1)) hk)
    rw [hstep]
    exact (ih _ (by omega)).trans hperm

theorem scatter_length {α : Type} :
    ∀ (pairs : List (ℕ × α)) (init : List α),
      (scatter init pairs).length = init.length := by
  intro pairs
  induction pairs with
  | nil => intro init; rfl
  | cons pr rest ih =>
    intro init
    have hstep : scatter init (pr :: rest) =
        scatter (init.set pr.1 pr.2) rest := rfl
    rw [hstep, ih, List.length_set]

theorem scatter_getD_not_mem {α : Type} :
    ∀ (pairs : List (ℕ × α)) (init : List α) (p : ℕ) (d : α),
      p ∉ pairs.map Prod.fst →
      (scatter init pairs).getD p d = init.getD p d := by
  intro pairs
  induction pairs with
  | nil => intro init p d _; rfl
  | cons pr rest ih =>
    intro init p d hp
    have hstep : scatter init (pr :: rest) =
        scatter (init.set pr.1 pr.2) rest := rfl
    rw [hstep, ih _ p d (fun h => hp (List.mem_cons_of_mem _ h))]
    refine getD_set_ne _ _ _ _ _ (fun heq => hp ?_)
    rw [heq]
    exact List.mem_map_of_mem Prod.fst (List.mem_cons_self pr rest)

theorem scatter_getD_of_unique {α : Type} :
    ∀ (pairs : List (ℕ × α)) (init : List α) (p : ℕ) (v d : α),
      (p, v) ∈ pairs → (∀ w, (p, w) ∈ pairs → w = v) → p < init.length →
      (scatter init pairs).getD p d = v := by
  intro pairs
  induction pairs with
  | nil => intro init p v d hmem _ _; exact absurd hmem (by simp)
  | cons pr rest ih =>
    intro init p v d hmem huniq hp
    have hstep : scatter init (pr :: rest) =
        scatter (init.set pr.1 pr.2) rest := rfl
    rw [hstep]
    by_cases hpr : p ∈ rest.map Prod.fst
    · obtain ⟨q, hq, hqfst⟩ := List.mem_map.mp hpr
      have hq2 : (p, q.2) ∈ rest := by
        rw [show (p, q.2) = q from by rw [← hqfst]]
        exact hq
      have hqv : q.2 = v := huniq q.2 (List.mem_cons_of_mem _ hq2)
      refine ih (init.set pr.1 pr.2) p v d ?_ ?_ (by simpa using hp)
      · rw [← hqv]
        exact hq2
      · intro w hw
        exact huniq w (List.mem_cons_of_mem _ hw)
    · rcases List.mem_cons.mp hmem with heq | hrest
      · have hpr1 : pr.1 = p := by rw [← heq]
        have hpr2 : pr.2 = v := by rw [← heq]
        rw [scatter_getD_not_mem rest _ p d hpr, hpr1, hpr2]
        rw [List.getD_eq_getElem _ _ (by simpa using hp), List.getElem_set,
          if_pos rfl]
      · exact absurd (by simpa using List.mem_map_of_mem Prod.fst hrest) hpr

theorem scatter_count_true :
    ∀ (pairs : List (ℕ × Bool)) (init : List Bool),
      (pairs.map Prod.fst).Nodup →
      (∀ pr ∈ pairs, pr.1 < init.length) →
      (∀ pr ∈ pairs, init.getD pr.1 true = false) →
      (scatter init pairs).count true =
        init.count true + (pairs.filter (fun pr => pr.2)).length := by
  intro pairs
  induction pairs with
  | nil => intro init _ _ _; simp [scatter]
  | cons pr rest ih =>
    intro init hnd hlt hfalse
    have hstep : scatter init (pr :: rest) =
        scatter (init.set pr.1 pr.2) rest := rfl
    have hp : pr.1 < init.length := hlt pr (by simp)
    have hif : init[pr.1] = false := by
      have h := hfalse pr (by simp)
      rwa [List.getD_eq_getElem _ _ hp] at h
    have hnd1 : pr.1 ∉ rest.map Prod.fst := by
      simp only [List.map_cons, List.nodup_cons] at hnd
      exact hnd.1
    have hndrest : (rest.map Prod.fst).Nodup := by
      simp only [List.map_cons, List.nodup_cons] at hnd
      exact hnd.2
    have hcount : (init.set pr.1 pr.2).count true =
        init.count true + (if pr.2 then 1 else 0) := by
      rw [List.count_set _ _ _ _ hp, hif]
      cases hb : pr.2 <;> simp
    rw [hstep, ih (init.set pr.1 pr.2) hndrest ?_ ?_]
    · rw [hcount, List.filter_cons]
      cases hb : pr.2 <;> simp <;> omega
    · intro q hq
      rw [List.length_set]
      exact hlt q (List.mem_cons_of_mem _ hq)
    · intro q hq
      have hqne : q.1 ≠ pr.1 := fun h =>
        hnd1 (h ▸ List.mem_map_of_mem Prod.fst hq)
      rw [getD_set_ne _ _ _ _ _ hqne]
      exact hfalse q (List.mem_cons_of_mem _ hq)

theorem countP_range_lt (cNum : ℕ) :
    ∀ mNum : ℕ,
      (List.range mNum).countP (fun i => decide (i < cNum)) = min cNum mNum := by
  intro mNum
  induction mNum with
  | zero => simp
  | succ m ih =>
    rw [List.range_succ, List.countP_append, ih]
    by_cases h : m < cNum <;> simp [List.countP_cons, h] <;> omega

theorem map_getD_range (P : List ℕ) :
    (List.range P.length).map (fun i => P.getD i 0) = P := by
  apply List.ext_getElem
  · simp
  · intro n h1 h2
    simp only [List.getElem_map, List.getElem_range]
    exact List.getD_eq_getElem _ _ h2

/-- Claim C7: for every plate count and continental fraction in [0,1], under
the RandRange(0, i) stream contract, ClassifyPlates returns one flag per
plate with exactly round(numPlates * continentalFrac) continental plates,
those being the first entries of the seeded Fisher-Yates shuffle of the plate
index list. -/
theorem claim_C7 (numPlates : ℕ) (f : ℚ) (draw : ℕ → ℕ)
    (hf0 : 0 ≤ f) (hf1 : f ≤ 1) (hdraw : ∀ i, draw i ≤ i) :
    ClassifySpec numPlates f draw := by
  set cNum : ℕ := (roundToInt ((numPlates : ℚ) * f)).toNat with hC
  set P := fisherYatesAux draw (numPlates - 1) (List.range numPlates) with hP
  have hperm : List.Perm P (List.range numPlates) := by
    rcases Nat.eq_zero_or_pos numPlates with h0 | hpos
    · rw [hP, h0]
      exact List.Perm.refl _
    · have hlt : numPlates - 1 < (List.range numPlates).length := by
        simp
        omega
      exact fisherYatesAux_perm draw hdraw _ _ hlt
  have hlenP : P.length = numPlates := by
    rw [hperm.length_eq]
    simp
  have hmemP : ∀ x ∈ P, x < numPlates := fun x hx =>
    List.mem_range.mp (hperm.mem_iff.mp hx)
  have hndP : P.Nodup := hperm.nodup_iff.mpr (List.nodup_range numPlates)
  set pairs := (List.range numPlates).map
    (fun i => (P.getD i 0, decide (i < cNum))) with hpairs
  have hclass : ClassifyPlates numPlates f draw =
      scatter (List.replicate numPlates false) pairs := rfl
  have hposmap : pairs.map Prod.fst = P := by
    rw [hpairs, List.map_map]
    have hcomp : (Prod.fst ∘ fun i => (P.getD i 0, decide (i < cNum))) =
        fun i => P.getD i 0 := rfl
    rw [hcomp, show numPlates = P.length from hlenP.symm]
    exact map_getD_range P
  have hlt1 : ∀ pr ∈ pairs, pr.1 < numPlates := by
    intro q hq
    have hq1 : q.1 ∈ pairs.map Prod.fst := List.mem_map_of_mem _ hq
    rw [hposmap] at hq1
    exact hmemP _ hq1
  refine ⟨?_, ?_, ?_⟩
  · rw [hclass, scatter_length, List.length_replicate]
  · have hnodup : (pairs.map Prod.fst).Nodup := by
      rw [hposmap]
      exact hndP
    have hlt2 : ∀ pr ∈ pairs, pr.1 < (List.replicate numPlates false).length := by
      intro q hq
      rw [List.length_replicate]
      exact hlt1 q hq
    have hfl : ∀ pr ∈ pairs,
        (List.replicate numPlates false).getD pr.1 true = false := by
      intro q hq
      rw [List.getD_eq_getElem _ _ (by simpa using hlt1 q hq),
        List.getElem_replicate]
    have hcount := scatter_count_true pairs (List.replicate numPlates false)
      hnodup hlt2 hfl
    have h1 : (List.replicate numPlates false).count true = 0 := by
      rw [List.count_replicate]
      simp
    have h2 : (pairs.filter (fun pr => pr.2)).length = min cNum numPlates := by
      rw [hpairs, List.filter_map, List.length_map,
        ← List.countP_eq_length_filter]
      exact countP_range_lt cNum numPlates
    have hCle : cNum ≤ numPlates := by
      have hMf : (numPlates : ℚ) * f ≤ (numPlates : ℚ) :=
        mul_le_of_le_one_right (by positivity) hf1
      have hfl2 : roundToInt ((numPlates : ℚ) * f) < (numPlates : ℤ) + 1 := by
        rw [roundToInt]
        refine Int.floor_lt.mpr ?_
        push_cast
        linarith
      omega
    rw [hclass, hcount, h1, h2, ← hC]
    omega
  · intro i hi
    rw [hclass]
    refine scatter_getD_of_unique pairs _ _ _ _ ?_ ?_ ?_
    · rw [hpairs]
      exact List.mem_map_of_mem _ (List.mem_range.mpr hi)
    · intro w hw
      rw [hpairs] at hw
      obtain ⟨i2, hi2, heq⟩ := List.mem_map.mp hw
      have hi2n : i2 < numPlates := List.mem_range.mp hi2
      have h1 : P.getD i2 0 = P.getD i 0 := congrArg Prod.fst heq
      have h2 : decide (i2 < cNum) = w := congrArg Prod.snd heq
      have hii : i2 = i := by
        rw [List.getD_eq_getElem P 0 (show i2 < P.length by omega),
          List.getD_eq_getElem P 0 (show i < P.length by omega)] at h1
        exact hndP.getElem_inj_iff.mp h1
      rw [← h2, hii]
    · rw [List.length_replicate]
      have hmem : P.getD i 0 ∈ P := by
        rw [List.getD_eq_getElem _ _ (by omega)]
        exact List.getElem_mem _
      exact hmemP _ hmem

theorem sizeSquared_nonneg (v : Vec3) : 0 ≤ sizeSquared v := by
  unfold sizeSquared
  have hx := mul_self_nonneg v.x
  have hy := mul_self_nonneg v.y
  have hz := mul_self_nonneg v.z
  linarith

theorem sizeSq_vscale (v : Vec3) (c : ℝ) :
    sizeSquared (vscale v c) = sizeSquared v * c ^ 2 := by
  unfold sizeSquared vscale
  ring

theorem sizeSq_safeNormal {v : Vec3} (h : 1 / 100 ≤ sizeSquared v) :
    sizeSquared (safeNormal v) = 1 := by
  have hpos : 0 < sizeSquared v := lt_of_lt_of_le (by norm_num) h
  rw [safeNormal,
    if_neg (not_lt.mpr (le_trans (by rw [smallNumber]; norm_num) h))]
  rw [sizeSq_vscale, inv_pow, Real.sq_sqrt hpos.le]
  field_simp

theorem sizeV_safeNormal {v : Vec3} (h : 1 / 100 ≤ sizeSquared v) :
    sizeV (safeNormal v) = 1 := by
  rw [sizeV, sizeSq_safeNormal h, Real.sqrt_one]

theorem lagrangeIdentity (u v : Vec3) :
    sizeSquared (crossV u v) + (dotV u v) ^ 2 =
      sizeSquared u * sizeSquared v := by
  unfold sizeSquared crossV dotV
  ring

theorem frandRange_symm_mem {m t : ℝ} (hm : 0 ≤ m) (ht0 : 0 ≤ t)
    (ht1 : t < 1) :
    -m ≤ frandRange (-m) m t ∧ frandRange (-m) m t ≤ m := by
  unfold frandRange
  constructor <;> nlinarith

/-- Claim C3: for every plate produced by InitializePlateDynamics with
nonnegative max speed and positive radius, under the rejection-loop and
FRand stream contracts, the rotation axis is unit length, the angular
velocity lies in [-vmax/R, vmax/R], and the surface velocity at any point at
distance R has magnitude at most vmax. -/
theorem claim_C3 (radiusKm vmax : ℝ) (axisDraw : ℕ → Vec3)
    (omegaDraw : ℕ → ℝ) (outPlates : List FTectonicPlate)
    (hR : 0 < radiusKm) (hv : 0 ≤ vmax)
    (haxis : ∀ k, 1 / 100 ≤ sizeSquared (axisDraw k))
    (homega : ∀ k, 0 ≤ omegaDraw k ∧ omegaDraw k < 1) :
    DynamicsSpec radiusKm vmax axisDraw omegaDraw outPlates := by
  intro plate hmem
  unfold InitializePlateDynamics at hmem
  obtain ⟨pr, hpr, rfl⟩ := List.mem_map.mp hmem
  set m := vmax / radiusKm with hmdef
  have hm0 : 0 ≤ m := div_nonneg hv hR.le
  have ht := homega pr.1
  have homg := frandRange_symm_mem hm0 ht.1 ht.2
  have haxSq : sizeSquared (safeNormal (axisDraw pr.1)) = 1 :=
    sizeSq_safeNormal (haxis pr.1)
  refine ⟨sizeV_safeNormal (haxis pr.1), homg.1, homg.2, ?_⟩
  intro p hp
  set omg := frandRange (-m) m (omegaDraw pr.1) with homg2
  have homgSq : omg ^ 2 ≤ m ^ 2 := sq_le_sq' homg.1 homg.2
  have hcross := lagrangeIdentity (vscale (safeNormal (axisDraw pr.1)) omg) p
  have hssw : sizeSquared (vscale (safeNormal (axisDraw pr.1)) omg) =
      omg ^ 2 := by
    rw [sizeSq_vscale, haxSq, one_mul]
  rw [hssw, hp] at hcross
  have hm2 : m ^ 2 * radiusKm ^ 2 = vmax ^ 2 := by
    rw [hmdef]
    field_simp
  have hscale : omg ^ 2 * radiusKm ^ 2 ≤ m ^ 2 * radiusKm ^ 2 :=
    mul_le_mul_of_nonneg_right homgSq (sq_nonneg radiusKm)
  have hssv : sizeSquared (crossV (vscale (safeNormal (axisDraw pr.1)) omg) p) ≤
      vmax ^ 2 := by
    have hd2 := sq_nonneg (dotV (vscale (safeNormal (axisDraw pr.1)) omg) p)
    linarith
  have hfinal : sizeV (crossV (vscale (safeNormal (axisDraw pr.1)) omg) p) ≤
      vmax := by
    rw [sizeV]
    calc Real.sqrt (sizeSquared
          (crossV (vscale (safeNormal (axisDraw pr.1)) omg) p)) ≤
        Real.sqrt (vmax ^ 2) := Real.sqrt_le_sqrt hssv
      _ = vmax := Real.sqrt_sq hv
  exact hfinal

/-- Witness for claim C3 at radius 1, max speed 2, constant draw streams and
one plate. -/
theorem claim_C3_witness :
    ((0 : ℝ) < 1 ∧ (0 : ℝ) ≤ 2 ∧
      (∀ k : ℕ, 1 / 100 ≤ sizeSquared ((fun _ => (⟨1, 0, 0⟩ : Vec3)) k)) ∧
      (∀ k : ℕ, 0 ≤ ((fun _ => (1 : ℝ) / 2) k) ∧
        ((fun _ => (1 : ℝ) / 2) k) < 1)) ∧
    DynamicsSpec 1 2 (fun _ => ⟨1, 0, 0⟩) (fun _ => 1 / 2)
      [{ plateId := 0, pointIndices := [], centroidDir := vzero,
         rotationAxis := upVector, angularVelocity := 0 }] :=
  ⟨⟨by norm_num, by norm_num,
    fun k => by rw [show sizeSquared (⟨1, 0, 0⟩ : Vec3) = 1 by
      unfold sizeSquared; norm_num]; norm_num,
    fun k => ⟨by norm_num, by norm_num⟩⟩,
    claim_C3 1 2 (fun _ => ⟨1, 0, 0⟩) (fun _ => 1 / 2) _ (by norm_num)
      (by norm_num)
      (fun k => by rw [show sizeSquared (⟨1, 0, 0⟩ : Vec3) = 1 by
        unfold sizeSquared; norm_num]; norm_num)
      (fun k => ⟨by norm_num, by norm_num⟩)⟩

theorem ClassifyPlates_length (numPlates : ℕ) (f : ℚ) (draw : ℕ → ℕ) :
    (ClassifyPlates numPlates f draw).length = numPlates := by
  have h : ClassifyPlates numPlates f draw =
      scatter (List.replicate numPlates false)
        ((List.range numPlates).map (fun i =>
          ((fisherYatesAux draw (numPlates - 1)
              (List.range numPlates)).getD i 0,
            decide (i < (roundToInt ((numPlates : ℚ) * f)).toNat)))) := rfl
  rw [h, scatter_length, List.length_replicate]

theorem scatter_append {α : Type} (init : List α) (p q : List (ℕ × α)) :
    scatter (scatter init p) q = scatter init (p ++ q) := by
  unfold scatter
  rw [List.foldl_append]

theorem foldl_scatter {α : Type} (g : ℕ → List (ℕ × α)) :
    ∀ (l : List ℕ) (init : List α),
      l.foldl (fun out k => scatter out (g k)) init =
        scatter init (l.map g).flatten := by
  intro l
  induction l with
  | nil => intro init; rfl
  | cons k rest ih =>
    intro init
    rw [List.foldl_cons, ih, List.map_cons, List.flatten_cons, ← scatter_append]

theorem crustPairsForPlate_fst {samplePoints : List Vec3}
    {abyssalKm ridgeKm : ℝ} {bc : Bool} {platePoints : List ℕ}
    {localRand : ℕ → ℝ} {i : ℕ} {w : FCrustData}
    (h : (i, w) ∈ crustPairsForPlate samplePoints abyssalKm ridgeKm bc
      platePoints localRand) : i ∈ platePoints := by
  unfold crustPairsForPlate at h
  cases bc
  · rw [if_neg (by simp)] at h
    obtain ⟨idx, hidx, heq⟩ := List.mem_map.mp h
    have hfst : idx = i := congrArg Prod.fst heq
    rwa [← hfst]
  · rw [if_pos rfl] at h
    obtain ⟨pr2, hpr2, heq⟩ := List.mem_map.mp h
    have hfst : pr2.2 = i := congrArg Prod.fst heq
    rw [← hfst]
    exact mem_enum_snd hpr2

/-- Claim C1: for every point of a plate that ClassifyPlates marks oceanic
(under the partition hypotheses that the point belongs to that plate, is a
valid sample index, and belongs to no other plate), InitializeCrustData
stores an oceanic crust record whose elevation interpolates linearly from
the ridge elevation at d = 0 to the abyssal-plain elevation at d = 1 and
whose age is d * 200 My, with d the clamped normalized geodesic angle to the
plate centroid. -/
theorem claim_C1 (samplePoints : List Vec3) (plateToPoints : List (List ℕ))
    (continentalFrac : ℚ) (abyssalKm ridgeKm : ℝ) (classifyDraw : ℕ → ℕ)
    (localRand : ℕ → ℕ → ℝ) (plateIdx pointIdx : ℕ)
    (hplate : plateIdx < plateToPoints.length)
    (hocean : (ClassifyPlates plateToPoints.length continentalFrac
      classifyDraw).getD plateIdx true = false)
    (hmem : pointIdx ∈ plateToPoints.getD plateIdx [])
    (hpt : pointIdx < samplePoints.length)
    (huniq : ∀ q, q < plateToPoints.length → q ≠ plateIdx →
      pointIdx ∉ plateToPoints.getD q []) :
    OceanicCrustSpec samplePoints plateToPoints continentalFrac abyssalKm
      ridgeKm classifyDraw localRand plateIdx pointIdx := by
  set isCont := ClassifyPlates plateToPoints.length continentalFrac
    classifyDraw with hic
  have hlenic : isCont.length = plateToPoints.length :=
    ClassifyPlates_length _ _ _
  have hocean2 : isCont.getD plateIdx false = false := by
    rw [List.getD_eq_getElem _ _ (by omega)]
    rw [List.getD_eq_getElem _ _ (by omega)] at hocean
    exact hocean
  set g : ℕ → List (ℕ × FCrustData) := fun k =>
    crustPairsForPlate samplePoints abyssalKm ridgeKm (isCont.getD k false)
      (plateToPoints.getD k []) (localRand k) with hg
  have hinit : InitializeCrustData samplePoints plateToPoints continentalFrac
      abyssalKm ridgeKm classifyDraw localRand =
      scatter (List.replicate samplePoints.length defaultCrustData)
        ((List.range plateToPoints.length).map g).flatten := by
    rw [show InitializeCrustData samplePoints plateToPoints continentalFrac
        abyssalKm ridgeKm classifyDraw localRand =
        (List.range plateToPoints.length).foldl
          (fun out k => scatter out (g k))
          (List.replicate samplePoints.length defaultCrustData) from rfl]
    rw [foldl_scatter]
  set v := oceanicCrustAt abyssalKm ridgeKm (samplePoints.getD pointIdx vzero)
    (plateCentroid samplePoints (plateToPoints.getD plateIdx [])) with hv
  have hvmem : (pointIdx, v) ∈ g plateIdx := by
    show (pointIdx, v) ∈ crustPairsForPlate samplePoints abyssalKm ridgeKm
      (isCont.getD plateIdx false) (plateToPoints.getD plateIdx [])
      (localRand plateIdx)
    rw [hocean2]
    unfold crustPairsForPlate
    rw [if_neg (by simp)]
    exact List.mem_map_of_mem _ hmem
  have hmemflat : (pointIdx, v) ∈
      ((List.range plateToPoints.length).map g).flatten :=
    List.mem_flatten.mpr ⟨g plateIdx,
      List.mem_map_of_mem g (List.mem_range.mpr hplate), hvmem⟩
  have huniq2 : ∀ w, (pointIdx, w) ∈
      ((List.range plateToPoints.length).map g).flatten → w = v := by
    intro w hw
    obtain ⟨L, hL, hwL⟩ := List.mem_flatten.mp hw
    obtain ⟨q, hq, rfl⟩ := List.mem_map.mp hL
    have hqn : q < plateToPoints.length := List.mem_range.mp hq
    by_cases hqp : q = plateIdx
    · subst hqp
      have hthis : (pointIdx, w) ∈ crustPairsForPlate samplePoints abyssalKm
          ridgeKm false (plateToPoints.getD q []) (localRand q) := by
        rw [← hocean2]
        exact hwL
      unfold crustPairsForPlate at hthis
      rw [if_neg (by simp)] at hthis
      obtain ⟨idx, hidx, heq⟩ := List.mem_map.mp hthis
      have h1 : idx = pointIdx := congrArg Prod.fst heq
      have h2 : oceanicCrustAt abyssalKm ridgeKm (samplePoints.getD idx vzero)
          (plateCentroid samplePoints (plateToPoints.getD q [])) = w :=
        congrArg Prod.snd heq
      rw [← h2, h1]
    · exact absurd (crustPairsForPlate_fst hwL) (huniq q hqn hqp)
  have hres : (InitializeCrustData samplePoints plateToPoints continentalFrac
      abyssalKm ridgeKm classifyDraw localRand).getD pointIdx
      defaultCrustData = v := by
    rw [hinit]
    exact scatter_getD_of_unique _ _ _ _ _ hmemflat huniq2 (by simpa using hpt)
  refine ⟨?_, ?_, ?_, ?_⟩ <;> (rw [hres]; rfl)

/-- Witness for claim C1: one sample point forming one oceanic plate. -/
theorem claim_C1_witness :
    ((0 : ℕ) < ([[0]] : List (List ℕ)).length ∧
      (ClassifyPlates ([[0]] : List (List ℕ)).length 0 (fun _ => 0)).getD 0
        true = false ∧
      0 ∈ ([[0]] : List (List ℕ)).getD 0 [] ∧
      (0 : ℕ) < ([⟨1, 0, 0⟩] : List Vec3).length) ∧
    OceanicCrustSpec [⟨1, 0, 0⟩] [[0]] 0 (-6) (-1) (fun _ => 0)
      (fun _ _ => 0) 0 0 := by
  have hocean : (ClassifyPlates ([[0]] : List (List ℕ)).length 0
      (fun _ => 0)).getD 0 true = false := by
    simp [ClassifyPlates, fisherYatesAux, scatter, List.range_succ]
    rw [roundToInt]
    norm_num
  refine ⟨⟨by norm_num, hocean, by simp, by norm_num⟩, ?_⟩
  exact claim_C1 [⟨1, 0, 0⟩] [[0]] 0 (-6) (-1) (fun _ => 0) (fun _ _ => 0) 0 0
    (by norm_num) hocean (by simp) (by norm_num)
    (by intro q hq hne; simp at hq; omega)

/-- Counterexample to claim C2 as stated: cfgA and cfgB differ in the
continental fraction, an input that changes the generated output, yet their
settings hashes coincide for every choice of the engine hash primitives, and
with concrete primitives a rebuild under cfgB is skipped entirely when the
state was built under cfgA. -/
theorem claim_C2_counterexample :
    PTPConfig.continentalFrac cfgA ≠ PTPConfig.continentalFrac cfgB ∧
    (fun (hashCombine : ℕ → ℕ → ℕ) (typeHashInt : ℤ → ℕ)
        (typeHashFloat : ℝ → ℕ) =>
      ComputeSettingsHash hashCombine typeHashInt typeHashFloat cfgA) =
    (fun (hashCombine : ℕ → ℕ → ℕ) (typeHashInt : ℤ → ℕ)
        (typeHashFloat : ℝ → ℕ) =>
      ComputeSettingsHash hashCombine typeHashInt typeHashFloat cfgB) ∧
    RebuildPlanet hc0 hInt0 hFloat0 rng0 st0 cfgB = st0 := by
  refine ⟨by norm_num [cfgA, cfgB], rfl, ?_⟩
  show (if ComputeSettingsHash hc0 hInt0 hFloat0 cfgB =
      st0.cachedSettingsHash ∧ 0 < st0.samplePoints.length then st0
    else BuildPlanet rng0 cfgB (ComputeSettingsHash hc0 hInt0 hFloat0 cfgB)) =
    st0
  rw [if_pos ⟨rfl, by norm_num [st0]⟩]

/-- Claim C2, amended: RebuildPlanet is a no-op exactly when the settings
hash matches the cached hash and the existing point output is nonempty, and
runs the full generation pipeline otherwise; the hash depends only on the
four fields NumSamplePoints, NumPlates, PlanetRadiusKm and
VisualizationScale (so changes to continentalRatio, the elevation endpoints,
max plate speed or initialSeed never alter it). -/
theorem claim_C2 : RebuildSpec := by
  intro hashCombine typeHashInt typeHashFloat rng st c
  refine ⟨?_, ?_, ?_⟩
  · intro hcond
    show (if ComputeSettingsHash hashCombine typeHashInt typeHashFloat c =
        st.cachedSettingsHash ∧ 0 < st.samplePoints.length then st
      else BuildPlanet rng c
        (ComputeSettingsHash hashCombine typeHashInt typeHashFloat c)) = st
    rw [if_pos hcond]
  · intro hcond
    show (if ComputeSettingsHash hashCombine typeHashInt typeHashFloat c =
        st.cachedSettingsHash ∧ 0 < st.samplePoints.length then st
      else BuildPlanet rng c
        (ComputeSettingsHash hashCombine typeHashInt typeHashFloat c)) =
      BuildPlanet rng c
        (ComputeSettingsHash hashCombine typeHashInt typeHashFloat c)
    rw [if_neg hcond]
  · intro c2 h1 h2 h3 h4
    unfold ComputeSettingsHash
    rw [h1, h2, h3, h4]

/-- Witness for the amended claim C2: the skip branch taken at the concrete
state st0 and configuration cfgA, through the claim theorem. -/
theorem claim_C2_witness :
    RebuildPlanet hc0 hInt0 hFloat0 rng0 st0 cfgA = st0 :=
  (claim_C2 hc0 hInt0 hFloat0 rng0 st0 cfgA).1 ⟨rfl, by norm_num [st0]⟩

/-- Witness for claim C7 at 4 plates, fraction 1/2, zero draw stream. -/
theorem claim_C7_witness :
    ((0 : ℚ) ≤ 1 / 2 ∧ (1 : ℚ) / 2 ≤ 1 ∧ ∀ i : ℕ, (fun _ => 0) i ≤ i) ∧
    ClassifySpec 4 (1 / 2) (fun _ => 0) :=
  ⟨⟨by norm_num, by norm_num, fun i => Nat.zero_le i⟩,
    claim_C7 4 (1 / 2) (fun _ => 0) (by norm_num) (by norm_num)
      (fun i => Nat.zero_le i)⟩

end Gaia
